import Mathlib

/-!
Verification of the OhMI repository (DICOM directory browser).

This file gives a shallow embedding, in Lean, of the parts of the
repository that the verified properties are about:

* `tree.py`   : the general tree class `Node`, its breadth-first and
                depth-first iterators, `find_all` / `find_first`, and the
                glyph-based `render` function, plus a small heap model of
                the mutable `Node.parent` property setter.
* `errors.py` : the `Escalation` enum and the `escalate` dispatcher.
* `image.py`  : the `Image` class (its 3D instantiation, which is the one
                the DICOM pipeline builds), `aspect_ratios`, `set_slice`
                and `get_slice`.
* `dicom.py`  : `fix_siuid`, `read_dicom_slice` and the two phases of
                `read_directory` (per-file read/grouping, then per-series
                validation and materialization).

Python-specific conventions used throughout the embedding:

* Exceptions raised by a Python function are modelled with `Except`; the
  error objects that `Image.set_slice` / `Image.get_slice` *return*
  (rather than raise) are modelled as ordinary returned values.
* Emitted `warnings.warn` calls are collected in a `List String` that is
  threaded through the pipeline.
* Python `float` metadata values (pixel spacing, slice thickness, slice
  location, pixel samples) are modelled as `ℚ`; `numpy` arrays are
  modelled as total functions from indices to `ℚ` together with an
  explicit shape.
-/

/-! ## tree.py : the value-level tree

A `Node` value models a Python tree node reachable from a root: its
`label` and its ordered list of children.  (The Python object also
carries `data` and a back-pointer `parent`; neither is consulted by the
traversals or by `render`, and the mutable `parent` setter is modelled
separately at the end of this section.) -/

inductive Node where
  | mk (label : String) (children : List Node)

/-- Python attribute `node.label`. -/
def Node.label : Node → String
  | .mk l _ => l

/-- Python attribute `node.children`. -/
def Node.children : Node → List Node
  | .mk _ cs => cs

mutual

/-- Number of nodes in the tree rooted at `t`. -/
def sizeT : Node → Nat
  | .mk _ cs => 1 + sizeF cs

/-- Number of nodes in a forest. -/
def sizeF : List Node → Nat
  | [] => 0
  | t :: ts => sizeT t + sizeF ts

end

mutual

/-- Height of the tree rooted at `t` (a single node has height 1). -/
def heightT : Node → Nat
  | .mk _ cs => 1 + heightF cs

/-- Height of a forest (the empty forest has height 0). -/
def heightF : List Node → Nat
  | [] => 0
  | t :: ts => max (heightT t) (heightF ts)

end

mutual

/-- Canonical preorder enumeration of the nodes of a tree: the root, then
the nodes of each child subtree, first child first. -/
def preorderT : Node → List Node
  | .mk l cs => .mk l cs :: preorderF cs

/-- Preorder enumeration of the nodes of a forest. -/
def preorderF : List Node → List Node
  | [] => []
  | t :: ts => preorderT t ++ preorderF ts

end

/-- Nodes of the tree `t` that sit at depth `d` (the root has depth 0),
listed left to right, children in insertion order. -/
def nodesAtDepth : Nat → Node → List Node
  | 0, t => [t]
  | d + 1, t => t.children.flatMap (nodesAtDepth d)

theorem sizeT_pos (t : Node) : 0 < sizeT t := by
  cases t with
  | mk l cs => simp [sizeT]

theorem sizeT_eq (t : Node) : sizeT t = 1 + sizeF t.children := by
  cases t with
  | mk l cs => rfl

theorem sizeF_append (a b : List Node) : sizeF (a ++ b) = sizeF a + sizeF b := by
  induction a with
  | nil => simp [sizeF]
  | cons t ts ih => simp [sizeF, ih]; omega

/-- `BFSIterator.__iter__` from `tree.py`, on the whole pending queue: pop
the first queue element, yield it, then append its children to the back of
the queue. -/
def bfsAux : List Node → List Node
  | [] => []
  | node :: queue => node :: bfsAux (queue ++ node.children)
termination_by q => sizeF q
decreasing_by
  simp only [sizeF_append, sizeF, sizeT_eq]
  omega

/-- `DFSIterator.__iter__` from `tree.py`, on the whole pending stack (the
head of the list is the top of the stack): pop the top element, yield it,
then push its children in reverse insertion order, so that the first child
ends on top. -/
def dfsAux : List Node → List Node
  | [] => []
  | node :: stack => node :: dfsAux (node.children ++ stack)
termination_by s => sizeF s
decreasing_by
  simp only [sizeF_append, sizeF, sizeT_eq]
  omega

/-- The full (finite) node sequence produced by `tree.BFSIterator(node)`. -/
def BFSIterator (node : Node) : List Node := bfsAux [node]

/-- The full (finite) node sequence produced by `tree.DFSIterator(node)`. -/
def DFSIterator (node : Node) : List Node := dfsAux [node]

theorem bfsAux_nil : bfsAux [] = [] := by
  rw [bfsAux.eq_def]

theorem bfsAux_cons (t : Node) (ts : List Node) :
    bfsAux (t :: ts) = t :: bfsAux (ts ++ t.children) := by
  rw [bfsAux.eq_def]

theorem dfsAux_nil : dfsAux [] = [] := by
  rw [dfsAux.eq_def]

theorem dfsAux_cons (t : Node) (ts : List Node) :
    dfsAux (t :: ts) = t :: dfsAux (t.children ++ ts) := by
  rw [dfsAux.eq_def]

theorem bfsAux_append (as : List Node) :
    ∀ bs, bfsAux (as ++ bs) = as ++ bfsAux (bs ++ as.flatMap Node.children) := by
  induction as with
  | nil => intro bs; simp
  | cons t ts ih =>
    intro bs
    rw [List.cons_append, bfsAux_cons, List.append_assoc, ih (bs ++ t.children)]
    simp [List.append_assoc]

theorem bfsAux_step (ts : List Node) :
    bfsAux ts = ts ++ bfsAux (ts.flatMap Node.children) := by
  have h := bfsAux_append ts []
  simpa using h

theorem sizeF_eq_zero {ts : List Node} (h : sizeF ts = 0) : ts = [] := by
  cases ts with
  | nil => rfl
  | cons t ts => exfalso; have := sizeT_pos t; simp [sizeF] at h; omega

theorem sizeF_flatMap_children (ts : List Node) :
    sizeF (ts.flatMap Node.children) + ts.length = sizeF ts := by
  induction ts with
  | nil => simp [sizeF]
  | cons t ts ih =>
    cases t with
    | mk l cs =>
      simp only [List.flatMap_cons, sizeF_append, Node.children, List.length_cons, sizeF, sizeT]
      omega

theorem heightF_append (a b : List Node) :
    heightF (a ++ b) = max (heightF a) (heightF b) := by
  induction a with
  | nil => simp [heightF]
  | cons t ts ih => simp [heightF, ih]; omega

theorem heightT_pos (t : Node) : 0 < heightT t := by
  cases t with
  | mk l cs => simp [heightT]

theorem heightF_flatMap_children {ts : List Node} (h : ts ≠ []) :
    heightF (ts.flatMap Node.children) < heightF ts := by
  induction ts with
  | nil => exact absurd rfl h
  | cons t ts ih =>
    cases t with
    | mk l cs =>
      simp only [List.flatMap_cons, heightF_append, Node.children, heightF, heightT]
      rcases eq_or_ne ts [] with hnil | hne
      · subst hnil
        simp [heightF]
      · have := ih hne
        omega

theorem heightF_eq_zero {ts : List Node} (h : heightF ts = 0) : ts = [] := by
  cases ts with
  | nil => rfl
  | cons t ts => exfalso; have := heightT_pos t; simp [heightF] at h; omega

theorem preorderF_append (a b : List Node) :
    preorderF (a ++ b) = preorderF a ++ preorderF b := by
  induction a with
  | nil => simp [preorderF]
  | cons t ts ih => simp [preorderF, ih]

theorem preorderF_length : ∀ (n : Nat) (ts : List Node), sizeF ts ≤ n →
    (preorderF ts).length = sizeF ts := by
  intro n
  induction n with
  | zero =>
    intro ts h
    have : ts = [] := sizeF_eq_zero (Nat.le_zero.mp h)
    subst this
    simp [preorderF, sizeF]
  | succ n ih =>
    intro ts h
    cases ts with
    | nil => simp [preorderF, sizeF]
    | cons t ts =>
      cases t with
      | mk l cs =>
        simp only [sizeF, sizeT] at h
        simp only [preorderF, preorderT, List.length_append, List.length_cons, sizeF, sizeT]
        rw [ih cs (by omega), ih ts (by omega)]
        omega

theorem nodesAtDepthF_zero (ts : List Node) : ts.flatMap (nodesAtDepth 0) = ts := by
  simp [nodesAtDepth]

theorem nodesAtDepthF_succ (d : Nat) (ts : List Node) :
    ts.flatMap (nodesAtDepth (d + 1)) =
      (ts.flatMap Node.children).flatMap (nodesAtDepth d) := by
  rw [List.flatMap_assoc]
  rfl

theorem bfsAux_levels : ∀ (n : Nat) (ts : List Node), heightF ts ≤ n →
    bfsAux ts = ((List.range n).map (fun d => ts.flatMap (nodesAtDepth d))).flatten := by
  intro n
  induction n with
  | zero =>
    intro ts h
    have : ts = [] := heightF_eq_zero (Nat.le_zero.mp h)
    subst this
    simp [bfsAux_nil]
  | succ n ih =>
    intro ts h
    rcases eq_or_ne ts [] with hnil | hne
    · subst hnil
      simp [bfsAux_nil]
    · rw [bfsAux_step ts]
      have hlt : heightF (ts.flatMap Node.children) < heightF ts := heightF_flatMap_children hne
      rw [ih (ts.flatMap Node.children) (by omega)]
      rw [List.range_succ_eq_map]
      simp only [List.map_cons, List.map_map, List.flatten_cons, nodesAtDepthF_zero]
      congr 1
      congr 1
      refine List.map_congr_left (fun d _ => ?_)
      simp only [Function.comp]
      exact (nodesAtDepthF_succ d ts).symm

theorem perm_preorderF (ts : List Node) :
    (ts ++ preorderF (ts.flatMap Node.children)).Perm (preorderF ts) := by
  induction ts with
  | nil => simp
  | cons t ts ih =>
    cases t with
    | mk l cs =>
      simp only [List.flatMap_cons, Node.children, preorderF_append, preorderF, preorderT,
        List.cons_append]
      refine List.Perm.cons _ ?_
      have h1 : (ts ++ (preorderF cs ++ preorderF (ts.flatMap Node.children))).Perm
          (preorderF cs ++ (ts ++ preorderF (ts.flatMap Node.children))) := by
        rw [← List.append_assoc, ← List.append_assoc]
        exact List.Perm.append_right _ List.perm_append_comm
      exact h1.trans (List.Perm.append_left _ ih)

theorem bfsAux_perm : ∀ (n : Nat) (ts : List Node), sizeF ts ≤ n →
    (bfsAux ts).Perm (preorderF ts) := by
  intro n
  induction n with
  | zero =>
    intro ts h
    have : ts = [] := sizeF_eq_zero (Nat.le_zero.mp h)
    subst this
    simp [bfsAux_nil, preorderF]
  | succ n ih =>
    intro ts h
    rcases eq_or_ne ts [] with hnil | hne
    · subst hnil
      simp [bfsAux_nil, preorderF]
    · rw [bfsAux_step ts]
      have hlen : 0 < ts.length := by cases ts with
        | nil => exact absurd rfl hne
        | cons a b => simp
      have hsz := sizeF_flatMap_children ts
      have h1 : sizeF (ts.flatMap Node.children) ≤ n := by omega
      exact ((List.Perm.append_left ts (ih _ h1)).trans (perm_preorderF ts))

theorem dfsAux_eq_preorderF : ∀ (n : Nat) (ts : List Node), sizeF ts ≤ n →
    dfsAux ts = preorderF ts := by
  intro n
  induction n with
  | zero =>
    intro ts h
    have : ts = [] := sizeF_eq_zero (Nat.le_zero.mp h)
    subst this
    simp [dfsAux_nil, preorderF]
  | succ n ih =>
    intro ts h
    cases ts with
    | nil => simp [dfsAux_nil, preorderF]
    | cons t ts =>
      cases t with
      | mk l cs =>
        rw [dfsAux_cons]
        simp only [Node.children]
        have hs : sizeF (cs ++ ts) ≤ n := by
          rw [sizeF_append]
          simp only [sizeF, sizeT] at h
          omega
        rw [ih _ hs, preorderF_append]
        simp [preorderF, preorderT]

/-! ## tree.py : find_all / find_first -/

/-- Error raised by `find_first` (`errors.NotFoundError`). -/
inductive TreeError where
  | NotFoundError (msg : String)
deriving DecidableEq

/-- Loop body of `tree.find_all`: walk the iterator output, appending each
node that satisfies the filter to the accumulator `nodes`. -/
def findAllLoop (filter_ : Node → Bool) : List Node → List Node → List Node
  | [], nodes => nodes
  | n :: ns, nodes => findAllLoop filter_ ns (if filter_ n then nodes ++ [n] else nodes)

/-- `tree.find_all(node, filter_, iterator=BFSIterator)`.  The `iterator`
argument is the traversal's node sequence, as in the source, where any
`BaseIterator` subclass may be passed. -/
def find_all (node : Node) (filter_ : Node → Bool)
    (iterator : Node → List Node := BFSIterator) : List Node :=
  findAllLoop filter_ (iterator node) []

/-- Loop body of `tree.find_first`: return the first node satisfying the
filter, or raise `errors.NotFoundError` after an exhausted traversal. -/
def findFirstLoop (filter_ : Node → Bool) : List Node → Except TreeError Node
  | [] => .error (.NotFoundError ("No node found matching the filter."))
  | n :: ns => if filter_ n then .ok n else findFirstLoop filter_ ns

/-- `tree.find_first(node, filter_, iterator=BFSIterator)`. -/
def find_first (node : Node) (filter_ : Node → Bool)
    (iterator : Node → List Node := BFSIterator) : Except TreeError Node :=
  findFirstLoop filter_ (iterator node)

theorem findAllLoop_eq (filter_ : Node → Bool) :
    ∀ (ns acc : List Node), findAllLoop filter_ ns acc = acc ++ ns.filter filter_ := by
  intro ns
  induction ns with
  | nil => intro acc; simp [findAllLoop]
  | cons n ns ih =>
    intro acc
    rw [findAllLoop]
    rcases hf : filter_ n with _ | _
    · simp [hf, ih, List.filter_cons, hf]
    · simp [hf, ih, List.filter_cons, hf]

theorem findFirstLoop_eq (filter_ : Node → Bool) :
    ∀ ns : List Node, findFirstLoop filter_ ns =
      (match ns.filter filter_ with
       | [] => .error (.NotFoundError ("No node found matching the filter."))
       | n :: _ => .ok n) := by
  intro ns
  induction ns with
  | nil => simp [findFirstLoop]
  | cons n ns ih =>
    rw [findFirstLoop]
    rcases hf : filter_ n with _ | _
    · simp [hf, ih, List.filter_cons, hf]
    · simp [hf, List.filter_cons, hf]

/-! ## tree.py : render -/

/-- The four-glyph style record (`tree.TreePrintStyleBase`); the Python
field `end` is called `end_` here because `end` is a Lean keyword. -/
structure TreePrintStyleBase where
  vertical : String
  branch : String
  end_ : String
  blank : String

/-- `tree.TreePrintStyleASCII`. -/
def TreePrintStyleASCII : TreePrintStyleBase :=
  { vertical := "|   ", branch := "|-- ", end_ := "+-- ", blank := "    " }

/-- `tree.TreePrintStyleUnicode`. -/
def TreePrintStyleUnicode : TreePrintStyleBase :=
  { vertical := "│   ", branch := "├── ", end_ := "└── ", blank := "    " }

/-- The inner `_print` loop of `Node.render`: for each child of the current
node in order, emit its line and then its subtree's lines.  A child that is
not the last sibling gets the `branch` glyph and passes `prefix + vertical`
to its subtree; the last child gets the `end` glyph and passes
`prefix + blank`. -/
def renderChildren (style : TreePrintStyleBase) : String → List Node → List String
  | _, [] => []
  | pre, [c] =>
      (pre ++ style.end_ ++ c.label) :: renderChildren style (pre ++ style.blank) c.children
  | pre, c :: c2 :: cs =>
      (pre ++ style.branch ++ c.label) ::
        (renderChildren style (pre ++ style.vertical) c.children ++
          renderChildren style pre (c2 :: cs))
termination_by _ l => sizeF l
decreasing_by
  · simp only [sizeF, sizeT_eq]
    omega
  · simp only [sizeF, sizeT_eq]
    omega
  · simp only [sizeF, sizeT_eq]
    have := sizeT_pos c
    omega

/-- The list `_strs` built by `Node.render`: the root label (with no glyph
prefix) followed by the glyph-prefixed line of every descendant. -/
def renderLines (node : Node) (style : TreePrintStyleBase) : List String :=
  node.label :: renderChildren style ("") node.children

/-- `Node.render(style, linesep)`: the lines joined by the separator. -/
def Node.render (node : Node) (style : TreePrintStyleBase := TreePrintStyleUnicode)
    (linesep : String := "\n") : String :=
  String.intercalate linesep (renderLines node style)

theorem renderChildren_nil (style : TreePrintStyleBase) (pre : String) :
    renderChildren style pre [] = [] := by
  rw [renderChildren.eq_def]

theorem renderChildren_single (style : TreePrintStyleBase) (pre : String) (c : Node) :
    renderChildren style pre [c] =
      (pre ++ style.end_ ++ c.label) :: renderChildren style (pre ++ style.blank) c.children := by
  rw [renderChildren.eq_def]

theorem renderChildren_cons₂ (style : TreePrintStyleBase) (pre : String)
    (c c2 : Node) (cs : List Node) :
    renderChildren style pre (c :: c2 :: cs) =
      (pre ++ style.branch ++ c.label) ::
        (renderChildren style (pre ++ style.vertical) c.children ++
          renderChildren style pre (c2 :: cs)) := by
  rw [renderChildren.eq_def]

theorem renderChildren_length (style : TreePrintStyleBase) :
    ∀ (n : Nat) (pre : String) (cs : List Node), sizeF cs ≤ n →
      (renderChildren style pre cs).length = sizeF cs := by
  intro n
  induction n with
  | zero =>
    intro pre cs h
    have : cs = [] := sizeF_eq_zero (Nat.le_zero.mp h)
    subst this
    simp [renderChildren_nil, sizeF]
  | succ n ih =>
    intro pre cs h
    match cs with
    | [] => simp [renderChildren_nil, sizeF]
    | [c] =>
      rw [renderChildren_single]
      have hc : sizeF c.children ≤ n := by
        have := sizeT_eq c
        simp only [sizeF] at h
        omega
      simp only [List.length_cons, ih _ _ hc, sizeF, sizeT_eq c]
      omega
    | c :: c2 :: cs =>
      rw [renderChildren_cons₂]
      have h' : sizeF (c :: c2 :: cs) = sizeT c + sizeF (c2 :: cs) := rfl
      have hc : sizeF c.children ≤ n := by
        have := sizeT_eq c
        have := sizeT_pos c2
        simp only [sizeF] at h ⊢
        omega
      have hcs : sizeF (c2 :: cs) ≤ n := by
        have := sizeT_eq c
        have := sizeT_pos c
        simp only [sizeF] at h ⊢
        omega
      simp only [List.length_cons, List.length_append, ih _ _ hc, ih _ _ hcs, h', sizeT_eq c]
      omega

/-! ## tree.py : the mutable parent setter

`Node.parent` is a Python property whose setter mutates the object graph:
it stores the new parent into `self._parent` and then appends `self` to
the new parent's `children` list (it never removes `self` from a previous
parent's list).  To state this mutation we model the object graph as a
heap: node identities are natural numbers and the heap maps each identity
to its record. -/

/-- The mutable state of one Python `Node` object: its label, the identity
of its `_parent` (if any), and the identities in its `children` list. -/
structure NodeObj where
  label : String
  parent : Option Nat
  children : List Nat
deriving DecidableEq, Inhabited

/-- The setter of the `Node.parent` property (`tree.py`): store `value`
into `self._parent`, then, when the new parent is not `None`, append
`self` to the new parent's `children`. -/
def parentSetter (heap : Nat → NodeObj) (self : Nat) (value : Option Nat) : Nat → NodeObj :=
  let heap1 : Nat → NodeObj :=
    fun i => if i = self then { heap i with parent := value } else heap i
  match value with
  | none => heap1
  | some p => fun i =>
      if i = p then { heap1 i with children := (heap1 i).children ++ [self] } else heap1 i

/-! ## Claims C7 - C10 -/

/-- Claim C7: for every finite tree of N nodes, breadth-first and
depth-first iteration each yield exactly N nodes, each node exactly once
(both sequences are permutations of the canonical preorder node
enumeration); breadth-first yields all nodes at depth d before any node at
depth d+1, children in insertion order (it equals the concatenation of the
per-depth node lists); and depth-first yields each node before its
descendants with the first child's subtree visited first (it equals the
preorder enumeration). -/
theorem claim_C7 (t : Node) :
    (BFSIterator t).length = sizeT t ∧
    (DFSIterator t).length = sizeT t ∧
    (BFSIterator t).Perm (preorderT t) ∧
    DFSIterator t = preorderT t ∧
    BFSIterator t = ((List.range (heightT t)).map (fun d => nodesAtDepth d t)).flatten := by
  have hpre : preorderF [t] = preorderT t := by simp [preorderF]
  have hperm : (BFSIterator t).Perm (preorderT t) := by
    have h := bfsAux_perm (sizeF [t]) [t] le_rfl
    rw [hpre] at h
    exact h
  have hdfs : DFSIterator t = preorderT t := by
    have h := dfsAux_eq_preorderF (sizeF [t]) [t] le_rfl
    rw [hpre] at h
    exact h
  have hlenpre : (preorderT t).length = sizeT t := by
    have h := preorderF_length (sizeF [t]) [t] le_rfl
    rw [hpre] at h
    simp only [sizeF] at h
    omega
  refine ⟨?_, ?_, hperm, hdfs, ?_⟩
  · rw [hperm.length_eq, hlenpre]
  · rw [hdfs, hlenpre]
  · have h := bfsAux_levels (heightT t) [t] (by simp [heightF])
    simpa only [List.flatMap_cons, List.flatMap_nil, List.append_nil] using h

/-- Claim C8: for every tree, predicate and traversal, `find_all` returns
exactly the traversal-order sequence of matching nodes (so the empty list,
not a failure, when none match), and `find_first` returns the first node
of that sequence, or fails with `NotFoundError` when it is empty. -/
theorem claim_C8 (node : Node) (filter_ : Node → Bool) (iterator : Node → List Node) :
    find_all node filter_ iterator = (iterator node).filter filter_ ∧
    find_first node filter_ iterator =
      (match (iterator node).filter filter_ with
       | [] => Except.error (.NotFoundError ("No node found matching the filter."))
       | n :: _ => Except.ok n) ∧
    ((iterator node).filter filter_ = [] →
      find_all node filter_ iterator = [] ∧
      find_first node filter_ iterator =
        Except.error (.NotFoundError ("No node found matching the filter."))) := by
  have h1 : find_all node filter_ iterator = (iterator node).filter filter_ := by
    rw [find_all, findAllLoop_eq]
    simp
  have h2 := findFirstLoop_eq filter_ (iterator node)
  refine ⟨h1, h2, fun hnil => ⟨?_, ?_⟩⟩
  · rw [h1, hnil]
  · rw [find_first, h2, hnil]

/-- Witness for claim C8's conditional part, at a two-node tree and a
predicate matching no node. -/
theorem claim_C8_witness :
    find_all (Node.mk ("a") [Node.mk ("b") []]) (fun n => n.label == "zzz") BFSIterator = [] ∧
    find_first (Node.mk ("a") [Node.mk ("b") []]) (fun n => n.label == "zzz") BFSIterator =
      Except.error (.NotFoundError ("No node found matching the filter.")) :=
  (claim_C8 (Node.mk ("a") [Node.mk ("b") []]) (fun n => n.label == "zzz") BFSIterator).2.2
    (by simp [BFSIterator, bfsAux_cons, bfsAux_nil, Node.children, Node.label])

/-- Claim C9: render produces exactly one line per node, the first line is
the root's label with no glyph prefix, and in pre-order every non-last
child's line carries the parent's prefix plus the branch glyph with its
subtree continuing under prefix + vertical, while the last child carries
the end glyph with its subtree continuing under prefix + blank. -/
theorem claim_C9 (t : Node) (style : TreePrintStyleBase) :
    (renderLines t style).length = sizeT t ∧
    (renderLines t style).head? = some t.label ∧
    (∀ pre c, renderChildren style pre [c] =
      (pre ++ style.end_ ++ c.label) ::
        renderChildren style (pre ++ style.blank) c.children) ∧
    (∀ pre c c2 cs, renderChildren style pre (c :: c2 :: cs) =
      (pre ++ style.branch ++ c.label) ::
        (renderChildren style (pre ++ style.vertical) c.children ++
          renderChildren style pre (c2 :: cs))) := by
  refine ⟨?_, rfl, fun pre c => renderChildren_single style pre c,
    fun pre c c2 cs => renderChildren_cons₂ style pre c c2 cs⟩
  rw [renderLines]
  simp only [List.length_cons,
    renderChildren_length style (sizeF t.children) "" t.children le_rfl, sizeT_eq]
  omega

/-- Claim C10: re-assigning `n.parent = q` appends `n` to `q`'s children
and leaves the former parent `p`'s children sequence unchanged (`n` is
never removed from it), so afterwards `n` appears in both `p`'s and `q`'s
children sequences, and `n`'s parent field is `q`. -/
theorem claim_C10 (heap : Nat → NodeObj) (n p q : Nat)
    (hparent : (heap n).parent = some p) (hpq : p ≠ q)
    (hmem : n ∈ (heap p).children) :
    (parentSetter heap n (some q) q).children = (heap q).children ++ [n] ∧
    (parentSetter heap n (some q) p).children = (heap p).children ∧
    n ∈ (parentSetter heap n (some q) p).children ∧
    n ∈ (parentSetter heap n (some q) q).children ∧
    (parentSetter heap n (some q) n).parent = some q := by
  have hq : (parentSetter heap n (some q) q).children = (heap q).children ++ [n] := by
    rw [parentSetter]
    simp only [if_pos rfl]
    rcases eq_or_ne q n with h | h
    · subst h; simp
    · simp [h]
  have hp : (parentSetter heap n (some q) p).children = (heap p).children := by
    rw [parentSetter]
    simp only [if_neg hpq]
    rcases eq_or_ne p n with h | h
    · subst h; simp
    · simp [h]
  refine ⟨hq, hp, ?_, ?_, ?_⟩
  · rw [hp]; exact hmem
  · rw [hq]; simp
  · rw [parentSetter]
    rcases eq_or_ne n q with h | h
    · simp [← h]
    · simp [h, Ne.symm h]

/-- Witness for claim C10 at a concrete three-object heap: node 1 has
parent 0 and is in 0's children; it is re-parented to node 2. -/
theorem claim_C10_witness :
    ((fun i => if i = 0 then NodeObj.mk ("p") none [1]
               else if i = 1 then NodeObj.mk ("n") (some 0) []
               else NodeObj.mk ("q") none []) 1).parent = some 0 ∧
    (0 : Nat) ≠ 2 ∧
    1 ∈ ((fun i => if i = 0 then NodeObj.mk ("p") none [1]
               else if i = 1 then NodeObj.mk ("n") (some 0) []
               else NodeObj.mk ("q") none []) 0).children ∧
    ((parentSetter (fun i => if i = 0 then NodeObj.mk ("p") none [1]
               else if i = 1 then NodeObj.mk ("n") (some 0) []
               else NodeObj.mk ("q") none []) 1 (some 2)) 2).children = [] ++ [1] ∧
    ((parentSetter (fun i => if i = 0 then NodeObj.mk ("p") none [1]
               else if i = 1 then NodeObj.mk ("n") (some 0) []
               else NodeObj.mk ("q") none []) 1 (some 2)) 0).children = [1] :=
  ⟨by decide, by decide, by decide,
    ((claim_C10 (fun i => if i = 0 then NodeObj.mk ("p") none [1]
               else if i = 1 then NodeObj.mk ("n") (some 0) []
               else NodeObj.mk ("q") none []) 1 0 2 (by decide) (by decide) (by decide)).1),
    ((claim_C10 (fun i => if i = 0 then NodeObj.mk ("p") none [1]
               else if i = 1 then NodeObj.mk ("n") (some 0) []
               else NodeObj.mk ("q") none []) 1 0 2 (by decide) (by decide) (by decide)).2.1)⟩

/-! ## errors.py : escalation policy

Python exceptions that the pipeline can raise are collected in `PyExc`.
`escalate` either raises (`.error`), emits one warning (`.ok [w]`), or
does nothing observable (`.ok []`; the `nothing` callable of the source
only prints a diagnostic line).  The source's final `else` branch
(unrecognised escalation level) is unreachable for a value of the enum
type and has no counterpart here. -/

/-- The `errors.Escalation` enum. -/
inductive Escalation where
  | NOTHING
  | WARNING
  | ERROR
deriving DecidableEq

/-- Exceptions observable from the embedded pipeline code:
`errors.InvalidDicomError` (also standing for
`pydicom.errors.InvalidDicomError`, which it mirrors), Python `KeyError`
from a dict lookup, and Python `ValueError` / `RuntimeError`. -/
inductive PyExc where
  | invalidDicom (msg : String)
  | keyError (key : String)
  | valueError (msg : String)
  | runtimeError (msg : String)
deriving DecidableEq

/-- `errors.escalate(escalation, message, error_post, warn_post,
error, warning, nothing)`: raise `error(message + error_post)` on
ERROR, warn `message + warn_post` on WARNING, do nothing observable on
NOTHING. -/
def escalate (escalation : Escalation) (message : String)
    (error_post : String) (warn_post : String)
    (error : String → PyExc) : Except PyExc (List String) :=
  match escalation with
  | .ERROR => .error (error (message ++ error_post))
  | .WARNING => .ok [message ++ warn_post]
  | .NOTHING => .ok []

/-! ## image.py : the Image class (3D instantiation)

The DICOM pipeline always builds 3-dimensional images, and every claim
about the Image class concerns 3D volumes, so the embedding instantiates
`Image` at `ndim = 3`: the shape is a triple and the data array is a
total function on three indices (a `numpy` array of `float` samples is
modelled as the function giving the sample at each index triple; the
`dtype` cast is the identity on these rational samples).  The
`pixel_spacing` property setter computes `_aspect_ratios` through
`_set_aspect_ratios`, whose 3D branch is the one inlined in the
constructor model below. -/

/-- The `image.ImagePlane` enum. -/
inductive ImagePlane where
  | AXIAL
  | SAGITTAL
  | CORONAL
deriving DecidableEq

/-- A 2D `numpy` array (a pixel slice): its shape and its samples. -/
structure Arr2 where
  shape : Nat × Nat
  data : Nat → Nat → ℚ

/-- The state of an `image.Image` object with `ndim = 3`. -/
structure Image where
  name : String
  shape : Nat × Nat × Nat
  pixel_spacing : Option (ℚ × ℚ × ℚ)
  aspectRatios : Option (ℚ × ℚ × ℚ)
  series_id : Option String
  modality : Option String
  data : Nat → Nat → Nat → ℚ

/-- `Image.__init__(name, shape, pixel_spacing, series_id, modality,
dtype)` for a 3D shape: allocate zero-filled data and let the
`pixel_spacing` setter derive `_aspect_ratios` via the 3D branch of
`_set_aspect_ratios`: `[spacing[1]/spacing[0], spacing[1]/spacing[2],
spacing[2]/spacing[0]]`. -/
def Image.new (name : String) (shape : Nat × Nat × Nat)
    (pixel_spacing : Option (ℚ × ℚ × ℚ)) (series_id : Option String)
    (modality : Option String) : Image :=
  { name := name
    shape := shape
    pixel_spacing := pixel_spacing
    aspectRatios := pixel_spacing.map (fun s => (s.2.1 / s.1, s.2.1 / s.2.2, s.2.2 / s.1))
    series_id := series_id
    modality := modality
    data := fun _ _ _ => 0 }

/-- `Image.aspect_ratios(image_plane=None)` on a 3D image: the stored
triple `[axial, sagittal, coronal]`. -/
def Image.aspect_ratios (img : Image) : Option (ℚ × ℚ × ℚ) :=
  img.aspectRatios

/-- `Image.aspect_ratios(image_plane)` on a 3D image with a plane
selector: the matching component of the stored triple. -/
def Image.aspect_ratiosAt (img : Image) (image_plane : ImagePlane) : Option ℚ :=
  img.aspectRatios.map (fun r =>
    match image_plane with
    | .AXIAL => r.1
    | .SAGITTAL => r.2.1
    | .CORONAL => r.2.2)

/-- Error objects that `Image.set_slice` / `Image.get_slice` construct and
*return* (they are not raised): `RuntimeError(...)` and
`IndexError(...)`. -/
inductive PyErrValue where
  | runtimeError (msg : String)
  | indexError (msg : String)
deriving DecidableEq

/-- `Image.set_slice(index, data, copy)` on a 3D image: if the 2D array's
shape differs from the first two dimensions, return (not raise) a
`RuntimeError` value; if the index is outside `[0, depth)`, return an
`IndexError` value; otherwise write the array into depth position
`index`.  The result pairs the returned error value (if any) with the
image state after the call; a failed call leaves the data untouched.
(The `copy` flag is irrelevant in this pure model.) -/
def Image.set_slice (img : Image) (index : Int) (d : Arr2) : Option PyErrValue × Image :=
  if d.shape ≠ (img.shape.1, img.shape.2.1) then
    (some (.runtimeError ("Given slice has wrong size.")), img)
  else if index < 0 ∨ index > (img.shape.2.2 : Int) - 1 then
    (some (.indexError ("List index out of range.")), img)
  else
    (none, { img with
      data := fun i j k => if (k : Int) = index then d.data i j else img.data i j k })

/-- Number of slice positions along the plane selected in
`Image.get_slice`: AXIAL fixes the depth axis (`shape[2]` positions),
SAGITTAL the second axis (`shape[1]`), CORONAL the first (`shape[0]`). -/
def numSlices (img : Image) (image_plane : ImagePlane) : Nat :=
  match image_plane with
  | .AXIAL => img.shape.2.2
  | .SAGITTAL => img.shape.2.1
  | .CORONAL => img.shape.1

/-- The 2D cross-section `Image.get_slice` reads at position `k` of the
selected plane: `data[:, :, k]`, `data[:, k, :]` or `data[k, :, :]`. -/
def sliceArr (img : Image) (image_plane : ImagePlane) (k : Nat) : Arr2 :=
  match image_plane with
  | .AXIAL => ⟨(img.shape.1, img.shape.2.1), fun i j => img.data i j k⟩
  | .SAGITTAL => ⟨(img.shape.1, img.shape.2.2), fun i k2 => img.data i k k2⟩
  | .CORONAL => ⟨(img.shape.2.1, img.shape.2.2), fun j k2 => img.data k j k2⟩

/-- Result of `Image.get_slice`: a raised exception, a *returned* error
value, or the selected 2D cross-section. -/
inductive GetSliceResult where
  | raised (e : PyExc)
  | errValue (e : PyErrValue)
  | ok (a : Arr2)

/-- `Image.get_slice(index, image_plane, copy)` on a 3D image: an unknown
plane raises `ValueError`; an index outside `[0, num_slices)` returns (not
raises) an `IndexError` value; otherwise the cross-section is returned.
(The view-vs-copy distinction of the `copy` flag is invisible in this
pure model.) -/
def Image.get_slice (img : Image) (index : Int)
    (image_plane : Option ImagePlane) : GetSliceResult :=
  match image_plane with
  | none => .raised (.valueError ("Unknown image plane None."))
  | some p =>
    if index < 0 ∨ index ≥ (numSlices img p : Int) then
      .errValue (.indexError ("List index out of range."))
    else
      .ok (sliceArr img p index.toNat)

/-! ## Claims C5 and C6 -/

/-- Claim C5: `set_slice` with a 2D array whose shape differs from the
volume's first two dimensions, or with an index outside `[0, depth)`,
returns an error value rather than raising and leaves the stored data
unchanged (the returned image state is exactly the input image);
`get_slice` with an out-of-range index for the selected plane likewise
returns an `IndexError` value rather than raising. -/
theorem claim_C5 (img : Image) (index : Int) (d : Arr2) :
    (d.shape ≠ (img.shape.1, img.shape.2.1) →
      img.set_slice index d = (some (.runtimeError ("Given slice has wrong size.")), img)) ∧
    (d.shape = (img.shape.1, img.shape.2.1) →
      (index < 0 ∨ (img.shape.2.2 : Int) ≤ index) →
      img.set_slice index d = (some (.indexError ("List index out of range.")), img)) ∧
    (∀ p : ImagePlane, (index < 0 ∨ (numSlices img p : Int) ≤ index) →
      img.get_slice index (some p) = .errValue (.indexError ("List index out of range."))) := by
  refine ⟨fun hsh => ?_, fun hsh hidx => ?_, fun p hidx => ?_⟩
  · rw [Image.set_slice, if_pos hsh]
  · rw [Image.set_slice, if_neg (by simp [hsh]), if_pos (by omega)]
  · rw [Image.get_slice, if_pos (by omega)]

/-- Witness for claim C5 at a concrete 2x2x2 volume: a 1x1 slice is
rejected with a returned RuntimeError value, index 5 is rejected with a
returned IndexError value, and `get_slice` at axial index 5 returns an
IndexError value; in each case the image state is unchanged. -/
theorem claim_C5_witness :
    ((Arr2.mk (1, 1) (fun _ _ => 0)).shape ≠
      ((Image.new ("v") (2, 2, 2) none none none).shape.1,
       (Image.new ("v") (2, 2, 2) none none none).shape.2.1)) ∧
    ((Image.new ("v") (2, 2, 2) none none none).set_slice 0 (Arr2.mk (1, 1) (fun _ _ => 0)) =
      (some (.runtimeError ("Given slice has wrong size.")),
        Image.new ("v") (2, 2, 2) none none none)) ∧
    ((Image.new ("v") (2, 2, 2) none none none).set_slice 5 (Arr2.mk (2, 2) (fun _ _ => 0)) =
      (some (.indexError ("List index out of range.")),
        Image.new ("v") (2, 2, 2) none none none)) ∧
    ((Image.new ("v") (2, 2, 2) none none none).get_slice 5 (some .AXIAL) =
      .errValue (.indexError ("List index out of range."))) :=
  ⟨by decide,
    (claim_C5 (Image.new ("v") (2, 2, 2) none none none) 0
      (Arr2.mk (1, 1) (fun _ _ => 0))).1 (by decide),
    (claim_C5 (Image.new ("v") (2, 2, 2) none none none) 5
      (Arr2.mk (2, 2) (fun _ _ => 0))).2.1 (by decide) (by decide),
    (claim_C5 (Image.new ("v") (2, 2, 2) none none none) 5
      (Arr2.mk (2, 2) (fun _ _ => 0))).2.2 .AXIAL (by decide)⟩

/-- Claim C6: a 3D volume with pixel spacing (s0, s1, s2) has
`aspect_ratios()` equal to the triple (s1/s0, s1/s2, s2/s0), the plane
selectors Axial, Sagittal, Coronal pick the corresponding components, and
in particular pixel spacing (1, 2, 4) yields axial = 2, sagittal = 1/2,
coronal = 4. -/
theorem claim_C6 :
    (∀ (name : String) (shape : Nat × Nat × Nat) (s0 s1 s2 : ℚ)
        (sid mo : Option String),
      (Image.new name shape (some (s0, s1, s2)) sid mo).aspect_ratios =
        some (s1 / s0, s1 / s2, s2 / s0) ∧
      (Image.new name shape (some (s0, s1, s2)) sid mo).aspect_ratiosAt .AXIAL =
        some (s1 / s0) ∧
      (Image.new name shape (some (s0, s1, s2)) sid mo).aspect_ratiosAt .SAGITTAL =
        some (s1 / s2) ∧
      (Image.new name shape (some (s0, s1, s2)) sid mo).aspect_ratiosAt .CORONAL =
        some (s2 / s0)) ∧
    ((Image.new ("v") (4, 4, 4) (some (1, 2, 4)) none none).aspect_ratiosAt .AXIAL =
      some 2 ∧
     (Image.new ("v") (4, 4, 4) (some (1, 2, 4)) none none).aspect_ratiosAt .SAGITTAL =
      some (1 / 2) ∧
     (Image.new ("v") (4, 4, 4) (some (1, 2, 4)) none none).aspect_ratiosAt .CORONAL =
      some 4) := by
  constructor
  · intro name shape s0 s1 s2 sid mo
    exact ⟨rfl, rfl, rfl, rfl⟩
  · refine ⟨?_, ?_, ?_⟩ <;>
      · simp only [Image.new, Image.aspect_ratiosAt, Option.map_some]
        norm_num

/-! ## dicom.py : reading one file

A `RawDicom` models one file on disk as the pipeline sees it through the
external `pydicom` decoder: whether `pydicom.dcmread` succeeds, which of
the required fields are present, and the decoded values (`SliceLocation`
and the decoded `pixel_array` with its shape are total here, as the
pipeline only touches them for files whose required fields were accepted).
Pipeline-visible diagnostics (`utils.verbose`, the verbosity argument and
the tree print at verbosity >= 3) have no observable effect on the result
and are not modelled. -/

/-- One DICOM file as decoded by the external parser. -/
structure RawDicom where
  fname : String
  decodeOk : Bool
  SeriesInstanceUID : Option String
  Columns : Option Nat
  Rows : Option Nat
  PixelSpacing : Option (ℚ × ℚ)
  SliceThickness : Option ℚ
  Modality : Option String
  SliceLocation : ℚ
  pixelShape : Nat × Nat
  pixelData : Nat → Nat → ℚ
deriving Inhabited

/-- `dicom.fix_siuid`: replace every `/` with `_` in a series UID.  (The
source uses `str.replace` with the single-character pattern `"/"`, which
coincides with this character-wise map.) -/
def fix_siuid (SIUID : String) : String :=
  String.mk (SIUID.toList.map (fun c => if c = '/' then '_' else c))

/-- The tuple returned by `dicom.read_dicom_slice`. -/
structure SliceInfo where
  SIUID : String
  ds : RawDicom
  columns : Nat
  rows : Nat
  pixel_spacing : ℚ × ℚ
  slice_thickness : ℚ
  modality : String

/-- `dicom.read_dicom_slice(file, ...)`: raise
`pydicom.errors.InvalidDicomError` (modelled as the error message) when
the file cannot be decoded or a required field is missing; otherwise
return the normalized UID and the decoded metadata.  (Its `escalation`
and `verbosity` parameters do not influence the result in the source.) -/
def read_dicom_slice (d : RawDicom) : Except String SliceInfo :=
  if d.decodeOk = false then
    .error ("Invalid Dicom file (cannot load): " ++ d.fname ++ ".")
  else match d.SeriesInstanceUID with
  | none => .error ("Invalid Dicom file found (no SeriesInstanceUID): " ++ d.fname ++ ".")
  | some s =>
    match d.Columns with
    | none => .error ("Invalid Dicom file found (no Columns): " ++ d.fname ++ ".")
    | some columns =>
      match d.Rows with
      | none => .error ("Invalid Dicom file found (no Rows): " ++ d.fname ++ ".")
      | some rows =>
        match d.PixelSpacing with
        | none => .error ("Invalid Dicom file found (no PixelSpacing): " ++ d.fname ++ ".")
        | some ps =>
          match d.SliceThickness with
          | none =>
            .error ("Invalid Dicom file found (no SliceThickness): " ++ d.fname ++ ".")
          | some th =>
            match d.Modality with
            | none => .error ("Invalid Dicom file found (no Modality): " ++ d.fname ++ ".")
            | some m => .ok ⟨fix_siuid s, d, columns, rows, ps, th, m⟩

/-! ## dicom.py : read_directory, phase 1 (read and group) -/

/-- One entry of the directory listing returned by `utils.find_files`:
either not a regular file (skipped by the loop) or a regular file with
its decoded content. -/
inductive DirEntry where
  | dir (name : String)
  | file (d : RawDicom)

/-- The per-series accumulator entry `images[SIUID]` of phase 1: the
decoded datasets and the parallel per-slice metadata lists. -/
structure SeriesGroup where
  Slices : List RawDicom
  Columns : List Nat
  Rows : List Nat
  PixelSpacing : List (ℚ × ℚ)
  SliceThickness : List ℚ
  Modality : List String

/-- The accumulator entry created for the first slice of a new UID. -/
def newGroup (i : SliceInfo) : SeriesGroup :=
  ⟨[i.ds], [i.columns], [i.rows], [i.pixel_spacing], [i.slice_thickness], [i.modality]⟩

/-- Appending one further slice to an existing accumulator entry. -/
def appendGroup (g : SeriesGroup) (i : SliceInfo) : SeriesGroup :=
  ⟨g.Slices ++ [i.ds], g.Columns ++ [i.columns], g.Rows ++ [i.rows],
    g.PixelSpacing ++ [i.pixel_spacing], g.SliceThickness ++ [i.slice_thickness],
    g.Modality ++ [i.modality]⟩

/-- The `images` dict of `read_directory`, modelled as an association list
in insertion order (Python dicts preserve insertion order): adding a slice
appends to an existing entry or appends a new entry at the end. -/
def addSlice (images : List (String × SeriesGroup)) (i : SliceInfo) :
    List (String × SeriesGroup) :=
  if (images.lookup i.SIUID).isSome then
    images.map (fun kg => if kg.1 = i.SIUID then (kg.1, appendGroup kg.2 i) else kg)
  else
    images ++ [(i.SIUID, newGroup i)]

/-- The local helper `err_msg` of `read_directory`: route a message
through `escalate` with `errors.InvalidDicomError` as the error kind, an
empty error postfix and the warning postfix `" Ignoring."`. -/
def err_msg (escalation : Escalation) (message : String) : Except PyExc (List String) :=
  escalate escalation message ("") (" Ignoring.") PyExc.invalidDicom

/-- The first loop of `read_directory`: skip non-regular files, read each
regular file with `read_dicom_slice`, group successful reads by normalized
UID, and route each `InvalidDicomError` through `err_msg` (under ERROR
escalation this re-raises, aborting the whole call; under WARNING it
records one warning and skips the file).  The accumulator carries the
warnings recorded so far and the groups built so far. -/
def readPhase (escalation : Escalation) :
    List DirEntry → List String → List (String × SeriesGroup) →
      Except PyExc (List String × List (String × SeriesGroup))
  | [], ws, images => .ok (ws, images)
  | .dir _ :: files, ws, images => readPhase escalation files ws images
  | .file d :: files, ws, images =>
    match read_dicom_slice d with
    | .ok info => readPhase escalation files ws (addSlice images info)
    | .error m =>
      match err_msg escalation m with
      | .error e => .error e
      | .ok w => readPhase escalation files (ws ++ w) images

/-! ## dicom.py : read_directory, phase 2 (validate, sort, materialize) -/

/-- Python `len(set(l)) > 1`: the list holds at least two distinct
values. -/
def inconsistent {α : Type} [DecidableEq α] (l : List α) : Bool :=
  match l with
  | [] => false
  | x :: xs => xs.any (fun y => decide (y ≠ x))

/-- The per-series consistency checks of `read_directory`, in source
order: `Columns`, `Rows`, `PixelSpacing`, `SliceThickness`, `Modality`,
each paired with the `what` word used in the escalation message. -/
def fieldChecks (g : SeriesGroup) : List (Bool × String) :=
  [(inconsistent g.Columns, "columns"),
   (inconsistent g.Rows, "rows"),
   (inconsistent g.PixelSpacing, "spacings"),
   (inconsistent g.SliceThickness, "thicknesses"),
   (inconsistent g.Modality, "modalities")]

/-- The field-check loop of `read_directory` for one series.  Reading
`images[SIUID][key]` after the entry was deleted raises Python `KeyError`;
on an inconsistent field the source deletes `images[SIUID]` and routes a
message through `err_msg` (whose exact text interpolates the stale loop
variable `file`; the embedding keeps only its fixed parts).  The state is
the warnings recorded so far and whether the entry has been deleted. -/
def runChecks (escalation : Escalation) (SIUID : String) :
    List (Bool × String) → List String → Bool → Except PyExc (List String × Bool)
  | [], ws, deleted => .ok (ws, deleted)
  | (bad, what) :: rest, ws, deleted =>
    if deleted then .error (.keyError SIUID)
    else if bad then
      match err_msg escalation
          ("The slice " ++ what ++ " are inconsistent (" ++ SIUID ++ ").") with
      | .error e => .error e
      | .ok w => runChecks escalation SIUID rest (ws ++ w) true
    else runChecks escalation SIUID rest ws deleted

/-- `sorted(slices, key=lambda s: s.SliceLocation)`: Python sorting is
stable and ascending on the key, which insertion sort on the key order
realizes exactly. -/
def sortSlices (slices : List RawDicom) : List RawDicom :=
  List.insertionSort (fun a b => a.SliceLocation ≤ b.SliceLocation) slices

/-- The slice-filling loop of `read_directory`: for slice `i`, decode the
pixel array (`astype(dtype)` is the identity on the rational samples); if
its shape differs from `shape[:-1]` = (Columns, Rows), raise
`errors.InvalidDicomError` directly (no escalation); otherwise call
`set_slice` — whose returned error value, if any, the source silently
discards, keeping the image state as-is. -/
def fillSlices (shape2 : Nat × Nat) :
    List RawDicom → Nat → Image → Except PyExc Image
  | [], _, img => .ok img
  | s :: rest, i, img =>
    if s.pixelShape ≠ shape2 then
      .error (.invalidDicom ("The pixel array shapes are inconsistent."))
    else
      fillSlices shape2 rest (i + 1) (img.set_slice (i : Int) ⟨s.pixelShape, s.pixelData⟩).2

/-- The materialization step of `read_directory` for one (already checked)
series: spacing = (PixelSpacing[0][0], PixelSpacing[0][1],
SliceThickness[0]), shape = (Columns[0], Rows[0], len(Slices)), modality =
Modality[0]; build the zero-filled `Image` named after the directory and
fill it slice by slice.  (The `[0]` accesses are modelled with `headD`;
phase 1 only ever creates non-empty groups.) -/
def materializeGroup (dirName SIUID : String) (g : SeriesGroup) : Except PyExc Image :=
  let ps := g.PixelSpacing.headD (0, 0)
  let spacing : ℚ × ℚ × ℚ := (ps.1, ps.2, g.SliceThickness.headD 0)
  let shape : Nat × Nat × Nat := (g.Columns.headD 0, g.Rows.headD 0, g.Slices.length)
  let modality := g.Modality.headD ("")
  fillSlices (shape.1, shape.2.1) g.Slices 0
    (Image.new dirName shape (some spacing) (some SIUID) (some modality))

/-- One iteration of the second loop of `read_directory`: sort the
series' slices by `SliceLocation` (stored back into the entry), run the
five consistency checks, and, if the entry is still present, materialize
the volume.  If the check loop ended with the entry deleted (only
possible when the last field was the inconsistent one), the subsequent
`images[SIUID]["PixelSpacing"]` access raises `KeyError`. -/
def processGroup (escalation : Escalation) (dirName SIUID : String) (g : SeriesGroup) :
    Except PyExc (List String × Image) :=
  let g2 : SeriesGroup := { g with Slices := sortSlices g.Slices }
  match runChecks escalation SIUID (fieldChecks g2) [] false with
  | .error e => .error e
  | .ok (ws, deleted) =>
    if deleted then .error (.keyError SIUID)
    else
      match materializeGroup dirName SIUID g2 with
      | .error e => .error e
      | .ok img => .ok (ws, img)

/-- The second loop of `read_directory` over all series of the directory,
threading the warnings and replacing each surviving series entry by its
assembled volume. -/
def mergePhase (escalation : Escalation) (dirName : String) :
    List (String × SeriesGroup) → List String → List (String × Image) →
      Except PyExc (List String × List (String × Image))
  | [], ws, out => .ok (ws, out)
  | (SIUID, g) :: rest, ws, out =>
    match processGroup escalation dirName SIUID g with
    | .error e => .error e
    | .ok (ws2, img) => mergePhase escalation dirName rest (ws ++ ws2) (out ++ [(SIUID, img)])

/-- `dicom.read_directory(path, ...)` on the directory listing `files`:
return the empty mapping for an empty listing, otherwise run phase 1
(read and group) and phase 2 (validate, sort, materialize).  The result
pairs the warnings emitted with the mapping from normalized series UID to
assembled volume; `.error` is an uncaught Python exception aborting the
call. -/
def read_directory (escalation : Escalation) (dirName : String) (files : List DirEntry) :
    Except PyExc (List String × List (String × Image)) :=
  if files.length = 0 then .ok ([], [])
  else
    match readPhase escalation files [] [] with
    | .error e => .error e
    | .ok (ws, images) => mergePhase escalation dirName images ws []

/-! ## Claim C1 -/

/-- A concrete directory for claim C1: two decodable files of series UID
"1" agreeing on everything except Rows (10 vs 11), plus one consistent
single-slice series "2". -/
def exC1Files : List DirEntry :=
  [.file ⟨("f1"), true, some ("1"), some 4, some 10, some (1, 1), some 1, some ("CT"), 0,
      (4, 10), fun _ _ => 0⟩,
   .file ⟨("f2"), true, some ("1"), some 4, some 11, some (1, 1), some 1, some ("CT"), 1,
      (4, 11), fun _ _ => 0⟩,
   .file ⟨("f3"), true, some ("2"), some 4, some 10, some (1, 1), some 1, some ("CT"), 0,
      (4, 10), fun _ _ => 0⟩]

/-- Claim C1 (code bug): the claim says a series with inconsistent Rows is
dropped, one warning per inconsistent field category is recorded, and the
other series of the directory are still assembled and returned.  The code
instead crashes: after `del images[SIUID]` the check loop's next
`images[SIUID][key]` access raises `KeyError`, aborting the whole
directory call (losing both the recorded warning and the consistent
series "2").  This theorem evaluates the embedded `read_directory` at the
concrete failing directory `exC1Files` under Warning escalation. -/
theorem claim_C1_code_bug :
    read_directory .WARNING ("d") exC1Files = .error (.keyError ("1")) := by
  rfl

/-! ## Claim C4 -/

theorem readPhase_append (esc : Escalation) (xs : List DirEntry) :
    ∀ (ys : List DirEntry) (ws : List String) (gs : List (String × SeriesGroup)),
      readPhase esc (xs ++ ys) ws gs =
        match readPhase esc xs ws gs with
        | .error e => .error e
        | .ok acc => readPhase esc ys acc.1 acc.2 := by
  induction xs with
  | nil => intro ys ws gs; simp [readPhase]
  | cons x xs ih =>
    intro ys ws gs
    cases x with
    | dir n =>
      simp only [List.cons_append, readPhase]
      exact ih ys ws gs
    | file d =>
      simp only [List.cons_append, readPhase]
      cases hrd : read_dicom_slice d with
      | ok info => exact ih ys ws (addSlice gs info)
      | error m =>
        dsimp only
        cases hem : err_msg esc m with
        | error e => rfl
        | ok w => exact ih ys (ws ++ w) gs

theorem readPhase_warning_ok (files : List DirEntry) :
    ∀ (ws : List String) (gs : List (String × SeriesGroup)),
      ∃ ws2 gs2, readPhase .WARNING files ws gs = .ok (ws2, gs2) := by
  induction files with
  | nil => intro ws gs; exact ⟨ws, gs, rfl⟩
  | cons x files ih =>
    intro ws gs
    cases x with
    | dir n => exact ih ws gs
    | file d =>
      cases hrd : read_dicom_slice d with
      | ok info =>
        obtain ⟨ws2, gs2, h⟩ := ih ws (addSlice gs info)
        exact ⟨ws2, gs2, by simp only [readPhase, hrd]; exact h⟩
      | error m =>
        obtain ⟨ws2, gs2, h⟩ := ih (ws ++ [m ++ (" Ignoring.")]) gs
        exact ⟨ws2, gs2, by simp only [readPhase, hrd, err_msg, escalate]; exact h⟩

theorem readPhase_ws_shift (esc : Escalation) (files : List DirEntry) :
    ∀ (ws : List String) (gs : List (String × SeriesGroup)),
      readPhase esc files ws gs =
        match readPhase esc files [] gs with
        | .error e => .error e
        | .ok acc => .ok (ws ++ acc.1, acc.2) := by
  induction files with
  | nil => intro ws gs; simp [readPhase]
  | cons x files ih =>
    intro ws gs
    cases x with
    | dir n =>
      simp only [readPhase]
      exact ih ws gs
    | file d =>
      simp only [readPhase]
      cases hrd : read_dicom_slice d with
      | ok info => exact ih ws (addSlice gs info)
      | error m =>
        dsimp only
        cases hem : err_msg esc m with
        | error e => rfl
        | ok w =>
          dsimp only
          rw [ih (ws ++ w) gs, ih ([] ++ w) gs]
          cases readPhase esc files [] gs with
          | error e => rfl
          | ok acc => simp

theorem mergePhase_ws_shift (esc : Escalation) (dirName : String)
    (gs : List (String × SeriesGroup)) :
    ∀ (ws : List String) (out : List (String × Image)),
      mergePhase esc dirName gs ws out =
        match mergePhase esc dirName gs [] out with
        | .error e => .error e
        | .ok acc => .ok (ws ++ acc.1, acc.2) := by
  induction gs with
  | nil => intro ws out; simp [mergePhase]
  | cons kg gs ih =>
    intro ws out
    obtain ⟨SIUID, g⟩ := kg
    simp only [mergePhase]
    cases hpg : processGroup esc dirName SIUID g with
    | error e => rfl
    | ok acc2 =>
      obtain ⟨ws2, img⟩ := acc2
      dsimp only
      rw [ih (ws ++ ws2) (out ++ [(SIUID, img)]), ih ([] ++ ws2) (out ++ [(SIUID, img)])]
      cases mergePhase esc dirName gs [] (out ++ [(SIUID, img)]) with
      | error e => rfl
      | ok acc => simp

/-- Claim C4: a directory entry `bad` that fails DICOM decode (or lacks a
required field, i.e. `read_dicom_slice` raises with message `m`) is local
under Warning escalation: the scan of `pre ++ [bad] ++ post` records
exactly one warning for `bad` (the raised message plus " Ignoring."),
`bad` contributes to no series group, and all other files are processed
exactly as in the scan of `pre ++ post`; under Error escalation the same
file makes the whole `read_directory` call raise `InvalidDicomError`
instead of returning a mapping. -/
theorem claim_C4 (pre post : List DirEntry) (bad : RawDicom) (m : String)
    (dirName : String) (hbad : read_dicom_slice bad = .error m) :
    (∀ ws gs ws1 gs1, readPhase .WARNING pre ws gs = .ok (ws1, gs1) →
      readPhase .WARNING (pre ++ .file bad :: post) ws gs =
        readPhase .WARNING post (ws1 ++ [m ++ (" Ignoring.")]) gs1 ∧
      readPhase .WARNING (pre ++ post) ws gs = readPhase .WARNING post ws1 gs1) ∧
    (∀ ws gs, (readPhase .WARNING (pre ++ .file bad :: post) ws gs).map Prod.snd =
      (readPhase .WARNING (pre ++ post) ws gs).map Prod.snd) ∧
    ((read_directory .WARNING dirName (pre ++ .file bad :: post)).map Prod.snd =
      (read_directory .WARNING dirName (pre ++ post)).map Prod.snd) ∧
    (∀ ws gs ws1 gs1, readPhase .ERROR pre ws gs = .ok (ws1, gs1) →
      readPhase .ERROR (pre ++ .file bad :: post) ws gs = .error (.invalidDicom m)) ∧
    (∀ ws1 gs1, readPhase .ERROR pre [] [] = .ok (ws1, gs1) →
      read_directory .ERROR dirName (pre ++ .file bad :: post) = .error (.invalidDicom m)) := by
  have hstep : ∀ ws gs, readPhase .WARNING (.file bad :: post) ws gs =
      readPhase .WARNING post (ws ++ [m ++ (" Ignoring.")]) gs := by
    intro ws gs
    simp only [readPhase, hbad, err_msg, escalate]
  have herrstep : ∀ ws gs, readPhase .ERROR (.file bad :: post) ws gs =
      .error (.invalidDicom m) := by
    intro ws gs
    simp only [readPhase, hbad, err_msg, escalate]
    simp
  have h1 : ∀ ws gs ws1 gs1, readPhase .WARNING pre ws gs = .ok (ws1, gs1) →
      readPhase .WARNING (pre ++ .file bad :: post) ws gs =
        readPhase .WARNING post (ws1 ++ [m ++ (" Ignoring.")]) gs1 ∧
      readPhase .WARNING (pre ++ post) ws gs = readPhase .WARNING post ws1 gs1 := by
    intro ws gs ws1 gs1 hpre
    constructor
    · rw [readPhase_append, hpre]
      exact hstep ws1 gs1
    · rw [readPhase_append, hpre]
  have h3 : ∀ ws gs ws1 gs1, readPhase .ERROR pre ws gs = .ok (ws1, gs1) →
      readPhase .ERROR (pre ++ .file bad :: post) ws gs = .error (.invalidDicom m) := by
    intro ws gs ws1 gs1 hpre
    rw [readPhase_append, hpre]
    exact herrstep ws1 gs1
  refine ⟨h1, ?_, ?_, h3, ?_⟩
  · intro ws gs
    obtain ⟨ws1, gs1, hpre⟩ := readPhase_warning_ok pre ws gs
    obtain ⟨h1a, h1b⟩ := h1 ws gs ws1 gs1 hpre
    rw [h1a, h1b]
    rw [readPhase_ws_shift .WARNING post (ws1 ++ [m ++ (" Ignoring.")]) gs1,
      readPhase_ws_shift .WARNING post ws1 gs1]
    cases readPhase .WARNING post [] gs1 with
    | error e => rfl
    | ok acc => rfl
  · obtain ⟨ws1, gs1, hpre⟩ := readPhase_warning_ok pre [] []
    obtain ⟨h1a, h1b⟩ := h1 [] [] ws1 gs1 hpre
    rw [read_directory, read_directory, if_neg (by simp)]
    rcases eq_or_ne (pre ++ post).length 0 with hlen0 | hlen0
    · have hnil : pre ++ post = [] := List.length_eq_zero.mp hlen0
      have hpre0 : pre = [] := (List.append_eq_nil.mp hnil).1
      have hpost0 : post = [] := (List.append_eq_nil.mp hnil).2
      subst hpre0
      subst hpost0
      simp [readPhase, mergePhase, hbad, err_msg, escalate]
      rfl
    · rw [if_neg hlen0]
      rw [readPhase_append .WARNING pre, readPhase_append .WARNING pre, hpre]
      dsimp only
      rw [hstep ws1 gs1]
      rw [readPhase_ws_shift .WARNING post (ws1 ++ [m ++ (" Ignoring.")]) gs1,
        readPhase_ws_shift .WARNING post ws1 gs1]
      cases readPhase .WARNING post [] gs1 with
      | error e => rfl
      | ok acc =>
        dsimp only
        rw [mergePhase_ws_shift .WARNING dirName acc.2 (ws1 ++ [m ++ (" Ignoring.")] ++ acc.1) [],
          mergePhase_ws_shift .WARNING dirName acc.2 (ws1 ++ acc.1) []]
        cases mergePhase .WARNING dirName acc.2 [] [] with
        | error e => rfl
        | ok acc2 => rfl
  · intro ws1 gs1 hpre
    rw [read_directory, if_neg (by simp)]
    rw [readPhase_append, hpre]
    dsimp only
    rw [herrstep ws1 gs1]

/-- Witness for claim C4: a concrete directory with one good file before,
one undecodable file in the middle, and one good file after. -/
theorem claim_C4_witness :
    (read_dicom_slice ⟨("bad"), false, none, none, none, none, none, none, 0, (1, 1),
        fun _ _ => 0⟩ =
      .error ("Invalid Dicom file (cannot load): bad.")) ∧
    (readPhase .ERROR
        [.file ⟨("g1"), true, some ("1"), some 1, some 1, some (1, 1), some 1, some ("CT"),
          0, (1, 1), fun _ _ => 0⟩] [] [] =
      .ok ([], addSlice []
        ⟨("1"), ⟨("g1"), true, some ("1"), some 1, some 1, some (1, 1), some 1, some ("CT"),
          0, (1, 1), fun _ _ => 0⟩, 1, 1, (1, 1), 1, ("CT")⟩)) ∧
    read_directory .ERROR ("d")
        ([.file ⟨("g1"), true, some ("1"), some 1, some 1, some (1, 1), some 1, some ("CT"),
          0, (1, 1), fun _ _ => 0⟩] ++
          .file ⟨("bad"), false, none, none, none, none, none, none, 0, (1, 1),
            fun _ _ => 0⟩ ::
          [.file ⟨("g2"), true, some ("1"), some 1, some 1, some (1, 1), some 1, some ("CT"),
            1, (1, 1), fun _ _ => 0⟩]) =
      .error (.invalidDicom ("Invalid Dicom file (cannot load): bad.")) :=
  ⟨rfl, rfl,
    (claim_C4
      [.file ⟨("g1"), true, some ("1"), some 1, some 1, some (1, 1), some 1, some ("CT"),
        0, (1, 1), fun _ _ => 0⟩]
      [.file ⟨("g2"), true, some ("1"), some 1, some 1, some (1, 1), some 1, some ("CT"),
        1, (1, 1), fun _ _ => 0⟩]
      (⟨("bad"), false, none, none, none, none, none, none, 0, (1, 1), fun _ _ => 0⟩)
      ("Invalid Dicom file (cannot load): bad.") ("d") rfl).2.2.2.2 []
      (addSlice []
        ⟨("1"), ⟨("g1"), true, some ("1"), some 1, some 1, some (1, 1), some 1, some ("CT"),
          0, (1, 1), fun _ _ => 0⟩, 1, 1, (1, 1), 1, ("CT")⟩) rfl⟩


/-! ## Claims C2 and C3 : materialization lemmas -/

theorem headD_eq {α : Type} {l : List α} {a : α} (d : α) (h : l.head? = some a) :
    l.headD d = a := by
  cases l with
  | nil => simp at h
  | cons x xs =>
    simp only [List.head?_cons, Option.some_inj] at h
    simp [h]

theorem inconsistent_eq_false {α : Type} [DecidableEq α] {l : List α} {a : α}
    (hh : l.head? = some a) (hall : ∀ x ∈ l, x = a) : inconsistent l = false := by
  cases l with
  | nil => simp at hh
  | cons x xs =>
    simp only [inconsistent, List.any_eq_false, decide_eq_true_eq, not_not]
    intro y hy
    rw [hall y (List.mem_cons_of_mem x hy), hall x (List.mem_cons_self x xs)]

theorem set_slice_ok (img : Image) (i : Nat) (d : Arr2)
    (hsh : d.shape = (img.shape.1, img.shape.2.1)) (hi : i < img.shape.2.2) :
    img.set_slice (i : Int) d =
      (none, { img with
        data := fun x y k =>
          if (k : Int) = (i : Int) then d.data x y else img.data x y k }) := by
  rw [Image.set_slice, if_neg (by simp [hsh]), if_neg (by omega)]

theorem fillSlices_ok : ∀ (l : List RawDicom) (i : Nat) (img : Image),
    (∀ s ∈ l, s.pixelShape = (img.shape.1, img.shape.2.1)) →
    i + l.length ≤ img.shape.2.2 →
    ∃ img2, fillSlices (img.shape.1, img.shape.2.1) l i img = .ok img2 ∧
      img2.name = img.name ∧ img2.shape = img.shape ∧
      img2.pixel_spacing = img.pixel_spacing ∧ img2.aspectRatios = img.aspectRatios ∧
      img2.series_id = img.series_id ∧ img2.modality = img.modality ∧
      (∀ x y k, i ≤ k → k < i + l.length →
        img2.data x y k = (l.getD (k - i) default).pixelData x y) ∧
      (∀ x y k, k < i ∨ i + l.length ≤ k → img2.data x y k = img.data x y k) := by
  intro l
  induction l with
  | nil =>
    intro i img _ _
    refine ⟨img, rfl, rfl, rfl, rfl, rfl, rfl, rfl, ?_, fun x y k _ => rfl⟩
    intro x y k h1 h2
    simp only [List.length_nil] at h2
    omega
  | cons s rest ih =>
    intro i img hsh hlen
    have hs : s.pixelShape = (img.shape.1, img.shape.2.1) := hsh s (List.mem_cons_self s rest)
    have hi : i < img.shape.2.2 := by
      simp only [List.length_cons] at hlen
      omega
    have hset := set_slice_ok img i ⟨s.pixelShape, s.pixelData⟩ hs hi
    have hstep : fillSlices (img.shape.1, img.shape.2.1) (s :: rest) i img =
        fillSlices (img.shape.1, img.shape.2.1) rest (i + 1)
          { img with data := fun x y k =>
              if (k : Int) = (i : Int) then s.pixelData x y else img.data x y k } := by
      rw [fillSlices, if_neg (by simp [hs]), hset]
    have hshapes2 : ∀ s2 ∈ rest, s2.pixelShape = (img.shape.1, img.shape.2.1) :=
      fun s2 h2 => hsh s2 (List.mem_cons_of_mem s h2)
    have hlen2 : (i + 1) + rest.length ≤ img.shape.2.2 := by
      simp only [List.length_cons] at hlen
      omega
    obtain ⟨img2, hfill, hname, hshape, hps, har, hsid, hmo, hin, hout⟩ :=
      ih (i + 1)
        { img with data := fun x y k =>
            if (k : Int) = (i : Int) then s.pixelData x y else img.data x y k }
        hshapes2 hlen2
    refine ⟨img2, by rw [hstep]; exact hfill, hname, hshape, hps, har, hsid, hmo, ?_, ?_⟩
    · intro x y k hk1 hk2
      rcases eq_or_ne k i with hk | hk
      · subst hk
        have h := hout x y k (Or.inl (by omega))
        rw [h]
        simp
      · have hk1a : i + 1 ≤ k := by omega
        have hk2a : k < (i + 1) + rest.length := by
          simp only [List.length_cons] at hk2
          omega
        rw [hin x y k hk1a hk2a]
        have : k - i = (k - (i + 1)) + 1 := by omega
        rw [this]
        simp
    · intro x y k hk
      have hk2 : k < i + 1 ∨ (i + 1) + rest.length ≤ k := by
        simp only [List.length_cons] at hk
        omega
      rcases hk with hklt | hkge
      · rw [hout x y k (Or.inl (by omega))]
        simp only []
        rw [if_neg (by omega)]
      · rw [hout x y k (Or.inr (by simp only [List.length_cons] at hkge ⊢; omega))]
        simp only []
        rw [if_neg (by simp only [List.length_cons] at hkge; omega)]

theorem fillSlices_error : ∀ (l : List RawDicom) (i : Nat) (img : Image) (shape2 : Nat × Nat),
    (∃ s ∈ l, s.pixelShape ≠ shape2) →
    fillSlices shape2 l i img =
      .error (.invalidDicom ("The pixel array shapes are inconsistent.")) := by
  intro l
  induction l with
  | nil =>
    rintro i img shape2 ⟨s, hs, _⟩
    exact absurd hs (List.not_mem_nil s)
  | cons s rest ih =>
    rintro i img shape2 ⟨s0, hmem, hne⟩
    rcases eq_or_ne s.pixelShape shape2 with he | hne2
    · have hs0 : s0 ∈ rest := by
        rcases List.mem_cons.mp hmem with h0 | h0
        · exact absurd (h0 ▸ hne) (by simp [he])
        · exact h0
      rw [fillSlices, if_neg (by simp [he])]
      exact ih _ _ shape2 ⟨s0, hs0, hne⟩
    · rw [fillSlices, if_pos hne2]

theorem sortSlices_perm (l : List RawDicom) : (sortSlices l).Perm l :=
  List.perm_insertionSort _ l

theorem sortSlices_sorted (l : List RawDicom) :
    List.Sorted (fun a b : RawDicom => a.SliceLocation ≤ b.SliceLocation) (sortSlices l) := by
  haveI h1 : IsTotal RawDicom (fun a b => a.SliceLocation ≤ b.SliceLocation) :=
    ⟨fun a b => le_total a.SliceLocation b.SliceLocation⟩
  haveI h2 : IsTrans RawDicom (fun a b => a.SliceLocation ≤ b.SliceLocation) :=
    ⟨fun _ _ _ hab hbc => le_trans hab hbc⟩
  exact List.sorted_insertionSort _ l

theorem processGroup_ok (esc : Escalation) (dirName SIUID : String) (g : SeriesGroup)
    (c r : Nat) (ps : ℚ × ℚ) (th : ℚ) (mo : String)
    (hc : g.Columns.head? = some c) (hcall : ∀ x ∈ g.Columns, x = c)
    (hr : g.Rows.head? = some r) (hrall : ∀ x ∈ g.Rows, x = r)
    (hps : g.PixelSpacing.head? = some ps) (hpsall : ∀ x ∈ g.PixelSpacing, x = ps)
    (hth : g.SliceThickness.head? = some th) (hthall : ∀ x ∈ g.SliceThickness, x = th)
    (hmo : g.Modality.head? = some mo) (hmoall : ∀ x ∈ g.Modality, x = mo)
    (hshapes : ∀ s ∈ g.Slices, s.pixelShape = (c, r)) :
    ∃ img, processGroup esc dirName SIUID g = .ok ([], img) ∧
      img.name = dirName ∧ img.shape = (c, r, g.Slices.length) ∧
      img.pixel_spacing = some (ps.1, ps.2, th) ∧ img.series_id = some SIUID ∧
      img.modality = some mo ∧
      (∀ x y k, k < (sortSlices g.Slices).length →
        img.data x y k = ((sortSlices g.Slices).getD k default).pixelData x y) ∧
      (∀ x y k, (sortSlices g.Slices).length ≤ k → img.data x y k = 0) := by
  obtain ⟨sl, cols, rows2, pss, ths, mos⟩ := g
  simp only at hc hcall hr hrall hps hpsall hth hthall hmo hmoall hshapes
  dsimp only
  have hlen : (sortSlices sl).length = sl.length := (sortSlices_perm sl).length_eq
  have hf1 : inconsistent cols = false := inconsistent_eq_false hc hcall
  have hf2 : inconsistent rows2 = false := inconsistent_eq_false hr hrall
  have hf3 : inconsistent pss = false := inconsistent_eq_false hps hpsall
  have hf4 : inconsistent ths = false := inconsistent_eq_false hth hthall
  have hf5 : inconsistent mos = false := inconsistent_eq_false hmo hmoall
  have hshapes2 : ∀ s ∈ sortSlices sl, s.pixelShape = (c, r) := by
    intro s hs
    exact hshapes s ((sortSlices_perm sl).mem_iff.mp hs)
  obtain ⟨img2, hfill, hname, hshape, hps2, har, hsid, hmo2, hin, hout⟩ :=
    fillSlices_ok (sortSlices sl) 0
      (Image.new dirName (c, r, (sortSlices sl).length)
        (some (ps.1, ps.2, th)) (some SIUID) (some mo))
      hshapes2 (by simp [Image.new])
  have hmat : materializeGroup dirName SIUID
      (SeriesGroup.mk (sortSlices sl) cols rows2 pss ths mos) = .ok img2 := by
    rw [materializeGroup]
    simp only [headD_eq (0, 0) hps, headD_eq 0 hc, headD_eq 0 hr, headD_eq 0 hth,
      headD_eq ("") hmo]
    exact hfill
  refine ⟨img2, ?_, hname, ?_, hps2, hsid, hmo2, fun x y k hk => ?_, fun x y k hk => ?_⟩
  · rw [processGroup]
    simp only [fieldChecks, hf1, hf2, hf3, hf4, hf5]
    rw [show runChecks esc SIUID
        [(false, ("columns")), (false, ("rows")), (false, ("spacings")),
         (false, ("thicknesses")), (false, ("modalities"))] [] false = .ok ([], false) from rfl]
    simp only [Bool.false_eq_true, if_false]
    rw [hmat]
  · rw [hshape, hlen]
    rfl
  · have h := hin x y k (Nat.zero_le k) (by omega)
    simpa using h
  · have h := hout x y k (Or.inr (by omega))
    rw [h]
    rfl

theorem processGroup_shape_error (esc : Escalation) (dirName SIUID : String) (g : SeriesGroup)
    (c r : Nat) (ps : ℚ × ℚ) (th : ℚ) (mo : String)
    (hc : g.Columns.head? = some c) (hcall : ∀ x ∈ g.Columns, x = c)
    (hr : g.Rows.head? = some r) (hrall : ∀ x ∈ g.Rows, x = r)
    (hps : g.PixelSpacing.head? = some ps) (hpsall : ∀ x ∈ g.PixelSpacing, x = ps)
    (hth : g.SliceThickness.head? = some th) (hthall : ∀ x ∈ g.SliceThickness, x = th)
    (hmo : g.Modality.head? = some mo) (hmoall : ∀ x ∈ g.Modality, x = mo)
    (hbad : ∃ s ∈ g.Slices, s.pixelShape ≠ (c, r)) :
    processGroup esc dirName SIUID g =
      .error (.invalidDicom ("The pixel array shapes are inconsistent.")) := by
  obtain ⟨sl, cols, rows2, pss, ths, mos⟩ := g
  simp only at hc hcall hr hrall hps hpsall hth hthall hmo hmoall hbad
  have hf1 : inconsistent cols = false := inconsistent_eq_false hc hcall
  have hf2 : inconsistent rows2 = false := inconsistent_eq_false hr hrall
  have hf3 : inconsistent pss = false := inconsistent_eq_false hps hpsall
  have hf4 : inconsistent ths = false := inconsistent_eq_false hth hthall
  have hf5 : inconsistent mos = false := inconsistent_eq_false hmo hmoall
  have hbad2 : ∃ s ∈ sortSlices sl, s.pixelShape ≠ (c, r) := by
    obtain ⟨s, hs, hne⟩ := hbad
    exact ⟨s, (sortSlices_perm sl).mem_iff.mpr hs, hne⟩
  have hmat : materializeGroup dirName SIUID
      (SeriesGroup.mk (sortSlices sl) cols rows2 pss ths mos) =
        .error (.invalidDicom ("The pixel array shapes are inconsistent.")) := by
    rw [materializeGroup]
    simp only [headD_eq (0, 0) hps, headD_eq 0 hc, headD_eq 0 hr, headD_eq 0 hth,
      headD_eq ("") hmo]
    exact fillSlices_error (sortSlices sl) 0 _ (c, r) hbad2
  rw [processGroup]
  simp only [fieldChecks, hf1, hf2, hf3, hf4, hf5]
  rw [show runChecks esc SIUID
      [(false, ("columns")), (false, ("rows")), (false, ("spacings")),
       (false, ("thicknesses")), (false, ("modalities"))] [] false = .ok ([], false) from rfl]
  simp only [Bool.false_eq_true, if_false]
  rw [hmat]

/-- Claim C2 (amended): for every consistent series group, materialization
builds a Volume with shape (columns, rows, slice count), spacing
(pixel-spacing-x, pixel-spacing-y, slice-thickness), series_id the
normalized UID and the group modality, and fills depth slot i with the
decoded pixel data of sorted slice i — provided every decoded pixel
array's shape equals the declared (columns, rows) geometry; any per-slice
pixel-array shape mismatch against that declared geometry raises
InvalidDicomError unconditionally, bypassing escalation (the same error
for every escalation level).  (As originally stated, with pixel arrays of
the input contract's shape (Rows, Columns), the claim fails whenever
Rows does not equal Columns: see the counterexample.) -/
theorem claim_C2 (esc : Escalation) (dirName SIUID : String) (g : SeriesGroup)
    (c r : Nat) (ps : ℚ × ℚ) (th : ℚ) (mo : String)
    (hc : g.Columns.head? = some c) (hcall : ∀ x ∈ g.Columns, x = c)
    (hr : g.Rows.head? = some r) (hrall : ∀ x ∈ g.Rows, x = r)
    (hps : g.PixelSpacing.head? = some ps) (hpsall : ∀ x ∈ g.PixelSpacing, x = ps)
    (hth : g.SliceThickness.head? = some th) (hthall : ∀ x ∈ g.SliceThickness, x = th)
    (hmo : g.Modality.head? = some mo) (hmoall : ∀ x ∈ g.Modality, x = mo) :
    ((∀ s ∈ g.Slices, s.pixelShape = (c, r)) →
      ∃ img, processGroup esc dirName SIUID g = .ok ([], img) ∧
        img.name = dirName ∧ img.shape = (c, r, g.Slices.length) ∧
        img.pixel_spacing = some (ps.1, ps.2, th) ∧ img.series_id = some SIUID ∧
        img.modality = some mo ∧
        (∀ x y k, k < (sortSlices g.Slices).length →
          img.data x y k = ((sortSlices g.Slices).getD k default).pixelData x y) ∧
        (∀ x y k, (sortSlices g.Slices).length ≤ k → img.data x y k = 0)) ∧
    ((∃ s ∈ g.Slices, s.pixelShape ≠ (c, r)) →
      processGroup esc dirName SIUID g =
        .error (.invalidDicom ("The pixel array shapes are inconsistent."))) :=
  ⟨fun hsh => processGroup_ok esc dirName SIUID g c r ps th mo
      hc hcall hr hrall hps hpsall hth hthall hmo hmoall hsh,
   fun hbad => processGroup_shape_error esc dirName SIUID g c r ps th mo
      hc hcall hr hrall hps hpsall hth hthall hmo hmoall hbad⟩

/-- A consistent two-slice series group (Columns 3, Rows 2) whose pixel
arrays have the declared (Columns, Rows) shape (3, 2). -/
def exC2Group : SeriesGroup :=
  ⟨[⟨("f1"), true, some ("1"), some 3, some 2, some (1, 1), some 1, some ("CT"), 1, (3, 2),
      fun _ _ => 7⟩,
    ⟨("f2"), true, some ("1"), some 3, some 2, some (1, 1), some 1, some ("CT"), 0, (3, 2),
      fun _ _ => 8⟩],
   [3, 3], [2, 2], [(1, 1), (1, 1)], [1, 1], [("CT"), ("CT")]⟩

/-- Witness for claim C2's success branch at the concrete consistent group
`exC2Group`. -/
theorem claim_C2_witness :
    ∃ img, processGroup .WARNING ("d") ("1") exC2Group = .ok ([], img) ∧
      img.name = ("d") ∧ img.shape = (3, 2, exC2Group.Slices.length) ∧
      img.pixel_spacing = some ((1, 1).1, (1, 1).2, 1) ∧ img.series_id = some ("1") ∧
      img.modality = some ("CT") ∧
      (∀ x y k, k < (sortSlices exC2Group.Slices).length →
        img.data x y k = ((sortSlices exC2Group.Slices).getD k default).pixelData x y) ∧
      (∀ x y k, (sortSlices exC2Group.Slices).length ≤ k → img.data x y k = 0) :=
  (claim_C2 .WARNING ("d") ("1") exC2Group 3 2 (1, 1) 1 ("CT")
    rfl (by decide) rfl (by decide) rfl (by decide) rfl (by decide) rfl (by decide)).1
    (by decide)

/-- A directory with one consistent single-slice series whose pixel array
has the input contract's shape (Rows, Columns) = (2, 3) with Columns 3 and
Rows 2. -/
def exC2ContractFiles : List DirEntry :=
  [.file ⟨("f1"), true, some ("1"), some 3, some 2, some (1, 1), some 1, some ("CT"), 0,
    (2, 3), fun _ _ => 0⟩]

/-- Counterexample to claim C2 as stated: for this consistent series whose
decoded pixel array has the contract shape (Rows, Columns) = (2, 3), the
claim asserts that a Volume of shape (3, 2, 1) is assembled and returned,
but the code's per-slice check compares the array shape against
shape[:-1] = (Columns, Rows) = (3, 2), so the call raises
InvalidDicomError and returns no volume at all. -/
theorem claim_C2_counterexample :
    read_directory .WARNING ("d") exC2ContractFiles =
      .error (.invalidDicom ("The pixel array shapes are inconsistent.")) ∧
    ∀ ws out, read_directory .WARNING ("d") exC2ContractFiles ≠ .ok (ws, out) := by
  have h : read_directory .WARNING ("d") exC2ContractFiles =
      .error (.invalidDicom ("The pixel array shapes are inconsistent.")) := rfl
  refine ⟨h, fun ws out hcontra => ?_⟩
  rw [h] at hcontra
  exact Except.noConfusion hcontra

/-- Claim C3: for every consistent series (with pixel arrays matching the
declared geometry, so that the volume is actually assembled), the
assembled Volume's depth axis holds the slices sorted by ascending
decoded SliceLocation: slot k holds sorted slice k, the sorted sequence is
ordered by SliceLocation and is a permutation of the group's slices. -/
theorem claim_C3 (esc : Escalation) (dirName SIUID : String) (g : SeriesGroup)
    (c r : Nat) (ps : ℚ × ℚ) (th : ℚ) (mo : String)
    (hc : g.Columns.head? = some c) (hcall : ∀ x ∈ g.Columns, x = c)
    (hr : g.Rows.head? = some r) (hrall : ∀ x ∈ g.Rows, x = r)
    (hps : g.PixelSpacing.head? = some ps) (hpsall : ∀ x ∈ g.PixelSpacing, x = ps)
    (hth : g.SliceThickness.head? = some th) (hthall : ∀ x ∈ g.SliceThickness, x = th)
    (hmo : g.Modality.head? = some mo) (hmoall : ∀ x ∈ g.Modality, x = mo)
    (hshapes : ∀ s ∈ g.Slices, s.pixelShape = (c, r)) :
    ∃ img, processGroup esc dirName SIUID g = .ok ([], img) ∧
      List.Sorted (fun a b : RawDicom => a.SliceLocation ≤ b.SliceLocation)
        (sortSlices g.Slices) ∧
      (sortSlices g.Slices).Perm g.Slices ∧
      (∀ x y k, k < (sortSlices g.Slices).length →
        img.data x y k = ((sortSlices g.Slices).getD k default).pixelData x y) := by
  obtain ⟨img, h1, _, _, _, _, _, hdata, _⟩ :=
    processGroup_ok esc dirName SIUID g c r ps th mo
      hc hcall hr hrall hps hpsall hth hthall hmo hmoall hshapes
  exact ⟨img, h1, sortSlices_sorted g.Slices, sortSlices_perm g.Slices, hdata⟩

/-- A consistent series of three single-sample slices with SliceLocation
values [30, 10, 20]; each slice's only pixel sample equals its own
location, so the depth order of the assembled volume is observable. -/
def exC3Group : SeriesGroup :=
  ⟨[⟨("f30"), true, some ("1"), some 1, some 1, some (1, 1), some 1, some ("CT"), 30, (1, 1),
      fun _ _ => 30⟩,
    ⟨("f10"), true, some ("1"), some 1, some 1, some (1, 1), some 1, some ("CT"), 10, (1, 1),
      fun _ _ => 10⟩,
    ⟨("f20"), true, some ("1"), some 1, some 1, some (1, 1), some 1, some ("CT"), 20, (1, 1),
      fun _ _ => 20⟩],
   [1, 1, 1], [1, 1, 1], [(1, 1), (1, 1), (1, 1)], [1, 1, 1], [("CT"), ("CT"), ("CT")]⟩

/-- Witness for claim C3 at `exC3Group` (locations [30, 10, 20]): the
sorted location sequence is [10, 20, 30], and evaluating the assembled
volume shows slot 0 holds the location-10 slice, slot 1 the location-20
slice, slot 2 the location-30 slice. -/
theorem claim_C3_witness :
    ((sortSlices exC3Group.Slices).map RawDicom.SliceLocation = [10, 20, 30]) ∧
    ((processGroup .WARNING ("d") ("1") exC3Group).toOption.map
        (fun p => (p.2.data 0 0 0, p.2.data 0 0 1, p.2.data 0 0 2)) =
      some (10, 20, 30)) ∧
    (∃ img, processGroup .WARNING ("d") ("1") exC3Group = .ok ([], img) ∧
      List.Sorted (fun a b : RawDicom => a.SliceLocation ≤ b.SliceLocation)
        (sortSlices exC3Group.Slices) ∧
      (sortSlices exC3Group.Slices).Perm exC3Group.Slices ∧
      (∀ x y k, k < (sortSlices exC3Group.Slices).length →
        img.data x y k = ((sortSlices exC3Group.Slices).getD k default).pixelData x y)) :=
  ⟨by decide, by rfl,
    claim_C3 .WARNING ("d") ("1") exC3Group 1 1 (1, 1) 1 ("CT")
      rfl (by decide) rfl (by decide) rfl (by decide) rfl (by decide) rfl (by decide)
      (by decide)⟩
